import Mathlib

/-!
Verification of the conversation/tool-orchestration core of RaidenAlpha.

This file gives a shallow embedding, in Lean, of the four core components of
the repository and proves the testable properties stated in the design spec
about them:

* the tool dispatcher `execute_tool_call` (src/app.py, lines 371-404),
* the streaming response assembler `handle_streaming_response`
  (src/app.py, lines 407-461),
* the bounded persistent conversation memory `RedisPersistentMemory`
  (src/raiden_agents/memory/persistent_memory.py),
* the per-turn orchestration loop body of `chat_agent` (src/app.py,
  lines 480-564).

Modelling conventions, used throughout:

* Python exceptions are made explicit: an operation that can raise is
  embedded as a function into `Except PyExc _`, and a `try/except` block
  becomes a `match` on that result.  A theorem stating that a function
  never returns `Except.error` is the embedding of "never propagates an
  exception to its caller".
* `json.loads` (an external library call) is a black box from the
  repository's point of view.  It is embedded as an explicit parameter
  `loads : String → Option PyVal` (`none` models a raised
  `json.JSONDecodeError`); theorems quantify over it, and concrete
  instances in witnesses agree with Python's `json.loads` at every string
  they are applied to.
* A conversation message is represented by its JSON serialization (the
  output of `json.dumps`): the memory component only ever stores
  serialized messages in Redis and re-parses them on read, and
  `json.dumps` / `json.loads` round-trip on everything this program
  writes, so identity on serialized strings models the dict round-trip,
  and `len(json.dumps(message))` is the length of the representation.
* The Upstash Redis list operations (`rpush`, `lpush`, `lindex`, `llen`,
  `lrange(start, -1)`) are embedded as the corresponding pure operations
  on a Lean `List` with index 0 at the head.
-/

namespace RaidenAlpha

/-! ## Python values and exceptions -/

/-- A Python value as far as tool dispatch is concerned: the results of
`json.loads`, tool keyword arguments, and tool return values.  -/
inductive PyVal where
  | pyNone
  | pyBool (b : Bool)
  | pyInt (n : Int)
  | pyStr (s : String)
  | pyList (xs : List PyVal)
  | pyDict (fields : List (String × PyVal))

/-- Whether a Python value is a `str`. -/
def PyVal.isStr : PyVal → Bool
  | .pyStr _ => true
  | _ => false

/-- The exceptions distinguished by the dispatcher's `try/except` blocks in
`execute_tool_call` (src/app.py, lines 399-404): `ToolExecutionError`
(src/raiden_agents/tools/base_tool.py, line 6) and any other exception. -/
inductive PyExc where
  | toolExecutionError (msg : String)
  | otherExc (msg : String)

/-- Python truthiness of an optional string: `None` and `""` are falsy.
Used for the source's `if not function_name`, `if arguments_str`,
`if tc_chunk.id`, `if delta_content`, etc. -/
def truthy : Option String → Option String
  | none => none
  | some s => if s = "" then none else some s

/-- Dictionary lookup, `d.get(k)`: `none` both when the key is absent.
Keys of dicts produced by `json.loads` are unique; lookup of the first
matching key models Python dictionary access. -/
def dictGet (fields : List (String × PyVal)) (k : String) : Option PyVal :=
  match fields.find? (fun kv => kv.1 == k) with
  | some kv => some kv.2
  | none => none

/-! ## Tool contract (src/raiden_agents/tools/base_tool.py) -/

/-- A registered tool as seen by the dispatcher.  `exec` is the behaviour
of the Python call `tool.execute(**args)`: it returns the tool's value or
the exception that call raises (including, for tools whose `execute` has a
fixed signature, the `TypeError` raised by the call itself). -/
structure PyTool where
  name : String
  required : List String
  exec : List (String × PyVal) → Except PyExc PyVal

/-- The missing-parameter computation of `Tool.validate_args`
(src/raiden_agents/tools/base_tool.py, line 34): a required parameter is
missing when absent or bound to `None`. -/
def requiredMissing (required : List String) (fields : List (String × PyVal)) : List String :=
  required.filter (fun p =>
    match dictGet fields p with
    | none => true
    | some .pyNone => true
    | some _ => false)

/-- `Tool.validate_args` (src/raiden_agents/tools/base_tool.py, lines
31-37): arguments must be a dict, and every required parameter must be
present and not `None`; on failure a `ToolExecutionError` naming the
missing fields, comma-separated, is raised. -/
def validate_args (required : List String) (args : PyVal) : Except PyExc Bool :=
  match args with
  | .pyDict fields =>
    if (requiredMissing required fields).isEmpty then .ok true
    else .error (.toolExecutionError ("Missing required parameters: "
        ++ String.intercalate ", " (requiredMissing required fields)))
  | _ => .error (.toolExecutionError "Arguments must be a dictionary.")

/-- The behaviour of an `execute` method that begins with
`self.validate_args(kwargs)` (as e.g. `WeatherTool.execute`,
src/raiden_agents/tools/weather_tool.py, line 29, does) and then runs the
rest of its body, here abstracted as `rest`. -/
def validateThenExec (required : List String)
    (rest : List (String × PyVal) → Except PyExc PyVal)
    (args : List (String × PyVal)) : Except PyExc PyVal :=
  match validate_args required (.pyDict args) with
  | .error e => .error e
  | .ok _ => rest args

/-! ## Tool dispatcher (src/app.py, `execute_tool_call`, lines 371-404) -/

/-- Registry lookup, `function_name in tool_map` / `tool_map[function_name]`
(src/app.py, lines 387, 393).  The registry maps unique names to tools. -/
def findTool (tool_map : List PyTool) (n : String) : Option PyTool :=
  tool_map.find? (fun t => t.name == n)

/-- The Python call `tool.execute(**function_args)` (src/app.py, line 394):
unpacking a non-mapping with `**` raises a `TypeError` before the tool
runs; otherwise the tool's `exec` behaviour decides the outcome. -/
def pyCallKw (tool : PyTool) (function_args : PyVal) : Except PyExc PyVal :=
  match function_args with
  | .pyDict fields => tool.exec fields
  | _ => .error (.otherExc "TypeError: arguments after ** must be a mapping")

/-- The `try/except` block around `tool.execute` (src/app.py, lines
392-404): a `ToolExecutionError` is converted to an error string carrying
its message, any other exception to a generic critical-error string, and a
successful result is returned unchanged (line 398 returns `result`, not
`str(result)`). -/
def execResultToMessage (function_name : String) :
    Except PyExc PyVal → Except PyExc PyVal
  | .ok result => .ok result
  | .error (.toolExecutionError e) =>
      .ok (.pyStr ("Error executing tool " ++ function_name ++ ": " ++ e))
  | .error (.otherExc _) =>
      .ok (.pyStr ("Critical Error executing tool " ++ function_name ++ "."))

/-- Dispatch once the arguments have been parsed (src/app.py, lines
387-404): unknown names yield an error string, otherwise the resolved tool
is invoked. -/
def dispatchParsed (tool_map : List PyTool) (function_name : String)
    (function_args : PyVal) : Except PyExc PyVal :=
  match findTool tool_map function_name with
  | none => .ok (.pyStr ("Error: Unknown function '" ++ function_name ++ "'"))
  | some tool => execResultToMessage function_name (pyCallKw tool function_args)

/-- The raw tool-call record handed to the dispatcher:
`tool_call_data.get('function', {}).get('name')` and `...get('arguments')`
(src/app.py, lines 373-374). -/
structure ToolCallData where
  id : Option String := none
  fname : Option String := none
  arguments : Option String := none

/-- `execute_tool_call` (src/app.py, lines 371-404).  `loads` is
`json.loads`; `function_args = json.loads(arguments_str) if arguments_str
else {}` (line 380) with `json.JSONDecodeError` caught at lines 382-385. -/
def execute_tool_call (loads : String → Option PyVal) (tool_map : List PyTool)
    (tc : ToolCallData) : Except PyExc PyVal :=
  match truthy tc.fname with
  | none => .ok (.pyStr "Error: Tool call missing function name.")
  | some function_name =>
    match truthy tc.arguments with
    | none => dispatchParsed tool_map function_name (.pyDict [])
    | some arguments_str =>
      match loads arguments_str with
      | none => .ok (.pyStr ("Error: Invalid JSON args for " ++ function_name ++ ": " ++ arguments_str))
      | some function_args => dispatchParsed tool_map function_name function_args

/-- The argument-parsing step of `execute_tool_call` in isolation
(src/app.py, line 380): a falsy arguments string is replaced by the empty
mapping, otherwise `json.loads` decides. -/
def parsedArguments (loads : String → Option PyVal) (tc : ToolCallData) : Option PyVal :=
  match truthy tc.arguments with
  | none => some (.pyDict [])
  | some arguments_str => loads arguments_str

/-! ## Concrete tools of the registry, modelled to dispatch depth

`initialize_tools` (src/app.py, lines 202-242) registers the constructed
tool instances under their names.  The tools below are the ones the
theorems exercise, translated from their sources; bodies that only matter
past the dispatch boundary (network and file effects) are abstracted as
explicit parameters. -/

mutual

/-- Python `repr` of a value, as interpolated into f-strings for
non-`str` values (quote escaping inside string reprs is not reproduced;
no theorem evaluates that corner). -/
def pyReprStr : PyVal → String
  | .pyNone => "None"
  | .pyBool b => cond b "True" "False"
  | .pyInt n => toString n
  | .pyStr s => "'" ++ s ++ "'"
  | .pyList xs => "[" ++ pyReprList xs ++ "]"
  | .pyDict fs => "\x7b" ++ pyReprFields fs ++ "\x7d"

def pyReprList : List PyVal → String
  | [] => ""
  | [x] => pyReprStr x
  | x :: y :: xs => pyReprStr x ++ ", " ++ pyReprList (y :: xs)

def pyReprFields : List (String × PyVal) → String
  | [] => ""
  | [kv] => "'" ++ kv.1 ++ "': " ++ pyReprStr kv.2
  | kv :: kv2 :: fs => "'" ++ kv.1 ++ "': " ++ pyReprStr kv.2 ++ ", " ++ pyReprFields (kv2 :: fs)

end

/-- Python `f"{x}"` for `x = kwargs.get("operation")`: `None` when the
key is absent, the bare text of a `str`, `repr`-like text otherwise. -/
def pyFString : Option PyVal → String
  | none => "None"
  | some .pyNone => "None"
  | some (.pyBool b) => cond b "True" "False"
  | some (.pyInt n) => toString n
  | some (.pyStr s) => s
  | some v => pyReprStr v

/-- `DateTimeTool.execute` (src/raiden_agents/tools/datetime_tool.py,
lines 15-18): no validation, no required parameters; the formatted clock
reading is the parameter `now`. -/
def dateTimeExec (now : String) (_args : List (String × PyVal)) : Except PyExc PyVal :=
  .ok (.pyStr ("Current date and time: " ++ now))

/-- The registered `get_current_datetime` tool
(src/raiden_agents/tools/datetime_tool.py, lines 7-18). -/
def dateTimeTool (now : String) : PyTool :=
  { name := "get_current_datetime", required := [], exec := dateTimeExec now }

/-- `EmailIntegrationTool.execute` (src/raiden_agents/tools/email_tool.py,
lines 41-80): the whole body is one `try` whose `except Exception` re-raises
as `ToolExecutionError(f"Failed to send email: {str(e)}")`.  The subscript
accesses `kwargs['recipient']`, `kwargs['subject']`, `kwargs['body']`
raise `KeyError` (whose `str` is the quoted key) in that order when
missing; `smtpSend` is the outcome of building and sending the MIME
message over SMTP; on success the literal dict
`{"status": "success", "message": "Email sent successfully"}` is
returned. -/
def emailExec (smtpSend : Except PyExc Unit) (args : List (String × PyVal)) :
    Except PyExc PyVal :=
  match dictGet args "recipient" with
  | none => .error (.toolExecutionError "Failed to send email: 'recipient'")
  | some _ =>
    match dictGet args "subject" with
    | none => .error (.toolExecutionError "Failed to send email: 'subject'")
    | some _ =>
      match dictGet args "body" with
      | none => .error (.toolExecutionError "Failed to send email: 'body'")
      | some _ =>
        match smtpSend with
        | .error (.toolExecutionError m) =>
            .error (.toolExecutionError ("Failed to send email: " ++ m))
        | .error (.otherExc m) =>
            .error (.toolExecutionError ("Failed to send email: " ++ m))
        | .ok _ =>
            .ok (.pyDict [("status", .pyStr "success"),
                          ("message", .pyStr "Email sent successfully")])

/-- The registered `send_email` tool (src/raiden_agents/tools/email_tool.py,
lines 13-39): schema-required parameters `recipient`, `subject`, `body`;
`execute` never calls `validate_args`. -/
def emailTool (smtpSend : Except PyExc Unit) : PyTool :=
  { name := "send_email", required := ["recipient", "subject", "body"], exec := emailExec smtpSend }

/-- The operations handled by the `if/elif` chain of `PdfTool.execute`
(src/raiden_agents/tools/pdf_tool.py, lines 130-377). -/
def pdfOperations : List String :=
  ["extract_text", "get_metadata", "get_page_count", "merge_pdfs", "split_pdf",
   "rotate_pages", "add_watermark", "encrypt_pdf", "decrypt_pdf"]

/-- `PdfTool.execute` (src/raiden_agents/tools/pdf_tool.py, lines
115-395), to dispatch depth: `operation = kwargs.get("operation")` is
compared against the nine known operations (Python `==` against a `str`
is false for any non-`str` value); a match runs the corresponding
file-manipulating branch, abstracted as `rest`; anything else reaches the
`else` at line 376 and raises
`ToolExecutionError(f"Unsupported PDF operation: {operation}")`, which the
`except ToolExecutionError` handler at line 385 re-raises unchanged.
`execute` never calls `validate_args`. -/
def pdfExec (rest : String → List (String × PyVal) → Except PyExc PyVal)
    (args : List (String × PyVal)) : Except PyExc PyVal :=
  match dictGet args "operation" with
  | some (.pyStr op) =>
    if op ∈ pdfOperations then rest op args
    else .error (.toolExecutionError ("Unsupported PDF operation: " ++ op))
  | other => .error (.toolExecutionError ("Unsupported PDF operation: " ++ pyFString other))

/-- The registered `pdf_operations` tool (src/raiden_agents/tools/pdf_tool.py,
lines 11-73): schema-required parameter `operation`. -/
def pdfTool (rest : String → List (String × PyVal) → Except PyExc PyVal) : PyTool :=
  { name := "pdf_operations", required := ["operation"], exec := pdfExec rest }

/-- `WeatherTool.execute` (src/raiden_agents/tools/weather_tool.py, lines
28-99): the body begins with `self.validate_args(kwargs)`; everything
after it (API key check, HTTP fetch, retries) is abstracted as `rest`. -/
def weatherExec (rest : List (String × PyVal) → Except PyExc PyVal)
    (args : List (String × PyVal)) : Except PyExc PyVal :=
  validateThenExec ["location"] rest args

/-- The registered `get_current_weather` tool
(src/raiden_agents/tools/weather_tool.py, lines 13-26): schema-required
parameter `location`. -/
def weatherTool (rest : List (String × PyVal) → Except PyExc PyVal) : PyTool :=
  { name := "get_current_weather", required := ["location"], exec := weatherExec rest }

/-! ## Bounded persistent memory
(src/raiden_agents/memory/persistent_memory.py, `RedisPersistentMemory`)

A message is represented by its JSON serialization (see the header); the
Redis list under `CONVERSATION_KEY` is a `List Msg` with index 0 at the
head.  Store unavailability is captured by the `initialized` flag and the
outcome of `ping()`; the best-effort vector-database mirror in
`add_message` (lines 81-106) never touches the Redis list and never
propagates failures, so it does not appear in the state. -/

/-- A conversation message, as its `json.dumps` serialization.  Note that
`json.dumps` never produces the empty string, so Python truthiness of a
serialized message coincides with presence. -/
abbrev Msg := String

/-- The state of a `RedisPersistentMemory` instance together with the
durable list it owns. -/
structure MemState where
  /-- `self.initialized` (line 21/38). -/
  initialized : Bool
  /-- whether `self.redis_client.ping()` currently succeeds. -/
  pingOk : Bool
  /-- `self.system_message`, serialized (line 22). -/
  system_message : Option Msg
  /-- `self.max_tokens` (line 24). -/
  max_tokens : Nat
  /-- the Redis list under `CONVERSATION_KEY`, head = index 0. -/
  log : List Msg

/-- `CHARS_PER_TOKEN_ESTIMATE` (line 16). -/
def CHARS_PER_TOKEN_ESTIMATE : Nat := 4

/-- `_estimate_tokens` (lines 66-68): `len(json.dumps(message)) // 4`;
the argument is already in serialized form here. -/
def estimate_tokens (m : Msg) : Nat := m.length / CHARS_PER_TOKEN_ESTIMATE

/-- Total estimated token cost of a list of messages. -/
def sumTokens (l : List Msg) : Nat := (l.map estimate_tokens).sum

/-- `is_ready` (lines 170-180): false unless initialized with a client and
`ping()` succeeds. -/
def is_ready (m : MemState) : Bool := m.initialized && m.pingOk

/-- The system-message initialization performed by `__init__` on the
durable log (lines 41-58): on an empty list (`lindex(key, 0)` falsy) the
system message is `lpush`ed; otherwise it is `lpush`ed exactly when the
parsed first element differs from it.  Equality of parsed messages is
modelled as equality of their serializations (see the header). -/
def initSystemMessage (sys : Option Msg) (log : List Msg) : List Msg :=
  match sys with
  | none => log
  | some s =>
    match log.head? with
    | none => s :: log
    | some first => if first = s then log else s :: log

/-- `add_message` (lines 70-110): appends (`rpush`) when the store is
ready and returns `true`; returns `false` without touching the log when it
is not.  The vector-database mirror is best-effort and log-free (see
above). -/
def add_message (m : MemState) (msg : Msg) : MemState × Bool :=
  if is_ready m then ({ m with log := m.log ++ [msg] }, true)
  else (m, false)

/-- Python's `list.insert(i, a)`, which clamps the index to the list
length (used at line 149, `messages_to_return.insert(1, message)`). -/
def pyInsert (l : List α) (i : Nat) (a : α) : List α :=
  l.take i ++ a :: l.drop i

/-- The token-budget walk of `get_messages` (lines 142-158): the fetched
recent history is traversed newest-to-oldest (`reversed(...)`); a message
whose estimated cost still fits is inserted at position 1 (right after the
system message), and the walk stops (`break`) at the first message that
does not fit.  All fetched entries were written by `json.dumps`, so the
`json.JSONDecodeError` branch at lines 155-156 is unreachable here. -/
def selectRecent (max_tokens : Nat) :
    List Msg → Nat → List Msg → List Msg
  | [], _, acc => acc
  | msg :: rest, current_tokens, acc =>
    let message_tokens := estimate_tokens msg
    if current_tokens + message_tokens ≤ max_tokens then
      selectRecent max_tokens rest (current_tokens + message_tokens) (pyInsert acc 1 msg)
    else acc

/-- The over-fetch heuristic of `get_messages` (lines 130-137):
`estimated_items_needed = (max_tokens // 4) * 5`, `start_index = max(0,
history_len - estimated_items_needed)`, bumped to 1 when the system
message is configured and the computed start is 0. -/
def fetch_start (m : MemState) : Nat :=
  let history_len := m.log.length
  let estimated_items_needed := m.max_tokens / CHARS_PER_TOKEN_ESTIMATE * 5
  let start_index := history_len - estimated_items_needed
  if m.system_message.isSome && start_index == 0 then 1 else start_index

/-- `lrange(CONVERSATION_KEY, start_index, -1)` (line 139). -/
def recent_history (m : MemState) : List Msg := m.log.drop (fetch_start m)

/-- `get_messages` (lines 112-168): with an unreachable store, fall back
to the system message alone (lines 114-116); otherwise charge the system
message first (lines 122-125) and run the budget walk over the fetched
recent history. -/
def get_messages (m : MemState) : List Msg :=
  if is_ready m then
    let messages_to_return : List Msg :=
      match m.system_message with | some s => [s] | none => []
    let current_tokens : Nat :=
      match m.system_message with | some s => estimate_tokens s | none => 0
    selectRecent m.max_tokens (recent_history m).reverse current_tokens messages_to_return
  else
    match m.system_message with | some s => [s] | none => []

/-! ## Streaming response assembler
(src/app.py, `handle_streaming_response`, lines 407-461) -/

/-- `tc_chunk.function` of a streamed tool-call delta. -/
structure FunctionDelta where
  name : Option String := none
  arguments : Option String := none

/-- One element of `chunk.choices[0].delta.tool_calls`. -/
structure ToolCallChunk where
  index : Nat
  id : Option String := none
  function : Option FunctionDelta := none

/-- `chunk.choices[0].delta` of one streamed chunk. -/
structure ChunkDelta where
  content : Option String := none
  tool_calls : Option (List ToolCallChunk) := none

/-- `{"name": ..., "arguments": ...}` of a finalized tool call. -/
structure FunctionSpec where
  name : String
  arguments : String
deriving DecidableEq

/-- A finalized tool-call request, `{"id": ..., "type": "function",
"function": {...}}` (src/app.py, lines 443-447). -/
structure ToolCallRequest where
  id : String
  type : String
  function : FunctionSpec
deriving DecidableEq

/-- One in-progress entry of `tool_calls_agg`, with the `defaultdict`
defaults `{"id": None, "name": None, "arguments": ""}` (line 410). -/
structure AggEntry where
  id : Option String := none
  name : Option String := none
  arguments : String := ""
deriving DecidableEq

/-- The assembler's per-stream state (line 410).  Entries of
`final_tool_calls_list` are paired with the emission index they came from;
this pairing is provenance only and is dropped when the final message is
built. -/
structure AsmState where
  full_response_content : String := ""
  tool_calls_agg : List (Nat × AggEntry) := []
  final_tool_calls_list : List (Nat × ToolCallRequest) := []
  completed_tool_call_indices : List Nat := []

/-- `tool_calls_agg[idx]` with `defaultdict` semantics: the most recent
binding for `idx`, else the default entry.  Updates prepend a new binding,
so the head-most binding is current. -/
def aggGet (agg : List (Nat × AggEntry)) (idx : Nat) : AggEntry :=
  match agg.find? (fun kv => kv.1 == idx) with
  | some kv => kv.2
  | none => {}

/-- The update an incoming delta applies to its index's aggregation entry
(src/app.py, lines 423-429): a truthy `id` overwrites, a truthy function
`name` overwrites, a truthy `arguments` fragment is appended to the
buffer. -/
def entryStep (e : AggEntry) (tc : ToolCallChunk) : AggEntry :=
  let e1 := match truthy tc.id with
    | some i => { e with id := some i }
    | none => e
  match tc.function with
  | none => e1
  | some f =>
    let e2 := match truthy f.name with
      | some n => { e1 with name := some n }
      | none => e1
    match truthy f.arguments with
    | some a => { e2 with arguments := e2.arguments ++ a }
    | none => e2

/-- Finalization guard and emission for one updated entry (src/app.py,
lines 431-448): once the entry has both an `id` and a `name` and its index
is not yet completed, its buffer is parsed; on success a finalized request
is appended and the index marked completed. -/
def processToolCallChunk (loads : String → Option PyVal) (st : AsmState)
    (tc : ToolCallChunk) : AsmState :=
  let idx := tc.index
  let current_call := entryStep (aggGet st.tool_calls_agg idx) tc
  let st' := { st with tool_calls_agg := (idx, current_call) :: st.tool_calls_agg }
  match current_call.id, current_call.name with
  | some cid, some cname =>
    if st.completed_tool_call_indices.contains idx then st'
    else
      match loads current_call.arguments with
      | some _ =>
        { st' with
          final_tool_calls_list :=
            st'.final_tool_calls_list ++ [(idx, ⟨cid, "function", ⟨cname, current_call.arguments⟩⟩)],
          completed_tool_call_indices := idx :: st'.completed_tool_call_indices }
      | none => st'
  | _, _ => st'

/-- Processing of one streamed chunk (src/app.py, lines 413-448): a truthy
text delta is appended to the accumulated content (its echo to stdout is a
local side effect), then each tool-call delta is processed in order (an
absent or empty `delta.tool_calls` contributes nothing). -/
def processChunk (loads : String → Option PyVal) (st : AsmState)
    (chunk : ChunkDelta) : AsmState :=
  let st1 := match truthy chunk.content with
    | some delta_content =>
      { st with full_response_content := st.full_response_content ++ delta_content }
    | none => st
  match chunk.tool_calls with
  | none => st1
  | some tcs => tcs.foldl (processToolCallChunk loads) st1

/-- The assembled final message (src/app.py, lines 456-461). -/
structure FinalMessage where
  role : String
  content : Option String
  tool_calls : Option (List ToolCallRequest)
deriving DecidableEq

/-- `handle_streaming_response` (src/app.py, lines 407-461).  `chunks` is
the sequence of chunks the stream yields before it either ends or raises;
`streamErrored` records whether iteration ended in the `except` branch
(lines 450-452), which logs and prints but changes nothing about the
returned message: the final dict is built from whatever was accumulated
(lines 456-461), with empty content and an empty finalized list mapped to
`None`. -/
def handle_streaming_response (loads : String → Option PyVal)
    (chunks : List ChunkDelta) (_streamErrored : Bool) : FinalMessage :=
  let st := chunks.foldl (processChunk loads) {}
  { role := "assistant"
    content :=
      if st.full_response_content = "" then none else some st.full_response_content
    tool_calls :=
      if st.final_tool_calls_list = [] then none
      else some (st.final_tool_calls_list.map (fun kv => kv.2)) }

/-! ## Orchestration loop, one user turn
(src/app.py, `chat_agent`, lines 480-564) -/

/-- A request to the completion backend, as assembled by the two
`litellm.completion(...)` calls (src/app.py, lines 525-531 and 554-558):
keyword arguments that are not passed are `none`. -/
structure CompletionRequest where
  model : String
  messages : List Msg
  tools : Option (List String)
  tool_choice : Option String
  stream : Bool
deriving DecidableEq

/-- The environment a turn runs in: the model name and tool schemas fixed
at startup, the registry, `json.loads`, the completion backend (mapping a
request to the chunks its stream yields plus whether iteration ended in an
error), and the serializations used when writing back to memory
(`json.dumps` of the assembled assistant dict, `json.dumps` of the tool
result dict, and Python's `str`). -/
structure TurnConfig where
  model : String
  schemas : List String
  tool_map : List PyTool
  loads : String → Option PyVal
  backend : CompletionRequest → List ChunkDelta × Bool
  serializeAssistant : FinalMessage → Msg
  serializeTool : String → Option String → Msg
  pyToStr : PyVal → String

/-- The first completion request of a turn (src/app.py, lines 525-531):
the bounded window, the full schema list, `tool_choice="auto"`,
streaming. -/
def firstRequest (cfg : TurnConfig) (mem : MemState) : CompletionRequest :=
  { model := cfg.model
    messages := get_messages mem
    tools := some cfg.schemas
    tool_choice := some "auto"
    stream := true }

/-- The second completion request of a turn (src/app.py, lines 554-558):
the updated window only; no `tools`, no `tool_choice`. -/
def secondRequest (cfg : TurnConfig) (mem : MemState) : CompletionRequest :=
  { model := cfg.model
    messages := get_messages mem
    tools := none
    tool_choice := none
    stream := true }

/-- The raw call record handed to `execute_tool_call` for one finalized
tool call (src/app.py, line 542): the finalized dict always carries
`id`, `function.name` and `function.arguments`. -/
def toToolCallData (r : ToolCallRequest) : ToolCallData :=
  { id := some r.id, fname := some r.function.name, arguments := some r.function.arguments }

/-- The tool-execution phase of a turn (src/app.py, lines 540-548): each
finalized call is dispatched in order; the (stringified) result is wrapped
as a `tool` message referencing the call's id and appended to memory (the
`add_message` return value is ignored at line 548).  An exception escaping
`execute_tool_call` would propagate to the loop's outer handler, hence the
`Except`. -/
def runToolCalls (cfg : TurnConfig) :
    MemState → List ToolCallRequest → Except PyExc MemState
  | mem, [] => .ok mem
  | mem, tc :: rest =>
    match execute_tool_call cfg.loads cfg.tool_map (toToolCallData tc) with
    | .error e => .error e
    | .ok result_content =>
      let result_msg := cfg.serializeTool (cfg.pyToStr result_content) (some tc.id)
      runToolCalls cfg (add_message mem result_msg).1 rest

/-- Python truthiness of `response_message_dict.get("tool_calls")`
(src/app.py, line 536): truthy iff present and non-empty. -/
def toolCallsTruthy : Option (List ToolCallRequest) → Bool
  | none => false
  | some l => !l.isEmpty

/-- The body of one user turn after the user message has been built
(src/app.py, lines 514-564), returning the final memory state and the
completion requests issued, in order.  If appending the user message fails
the turn aborts before any request (lines 516-518).  Otherwise the first
completion is requested and assembled; if it contains tool calls they are
dispatched and a second completion without tools is requested and
assembled; each assembled message is appended to memory. -/
def runTurn (cfg : TurnConfig) (mem : MemState) (user_message : Msg) :
    Except PyExc (MemState × List CompletionRequest) :=
  match add_message mem user_message with
  | (_, false) => .ok (mem, [])
  | (mem1, true) =>
    let req1 := firstRequest cfg mem1
    let stream1 := cfg.backend req1
    let response_message := handle_streaming_response cfg.loads stream1.1 stream1.2
    let mem2 := (add_message mem1 (cfg.serializeAssistant response_message)).1
    if toolCallsTruthy response_message.tool_calls then
      match runToolCalls cfg mem2 (response_message.tool_calls.getD []) with
      | .error e => .error e
      | .ok mem3 =>
        let req2 := secondRequest cfg mem3
        let stream2 := cfg.backend req2
        let final_response := handle_streaming_response cfg.loads stream2.1 stream2.2
        let mem4 := (add_message mem3 (cfg.serializeAssistant final_response)).1
        .ok (mem4, [req1, req2])
    else .ok (mem2, [req1])

/-! ## Characterizations used to state the assembler properties -/

/-- Concatenation of a list of strings. -/
def joinAll : List String → String
  | [] => ""
  | a :: l => a ++ joinAll l

/-- The tool-call deltas one chunk carries. -/
def chunkTCs (c : ChunkDelta) : List ToolCallChunk :=
  match c.tool_calls with
  | none => []
  | some tcs => tcs

/-- All tool-call deltas a stream of chunks delivers, in order. -/
def streamTCs (chunks : List ChunkDelta) : List ToolCallChunk :=
  (chunks.map chunkTCs).flatten

/-- The deltas belonging to one emission index, in order. -/
def tcsFor (idx : Nat) (tcs : List ToolCallChunk) : List ToolCallChunk :=
  tcs.filter (fun tc => tc.index == idx)

/-- The arguments fragment one delta contributes (empty if it carries
none: only truthy fragments are appended). -/
def fragOf (tc : ToolCallChunk) : String :=
  match tc.function with
  | some f => match truthy f.arguments with | some a => a | none => ""
  | none => ""

/-- The text fragment one chunk contributes (empty if it carries none:
only truthy deltas are appended). -/
def contentFragOf (c : ChunkDelta) : String :=
  match truthy c.content with | some d => d | none => ""

/-- Everything the assembler's state records about one emission index:
its aggregation entry, whether it is finalized, and the finalized
requests emitted for it. -/
def idxView (st : AsmState) (idx : Nat) : AggEntry × Bool × List ToolCallRequest :=
  (aggGet st.tool_calls_agg idx,
   st.completed_tool_call_indices.contains idx,
   (st.final_tool_calls_list.filter (fun kv => kv.1 == idx)).map (fun kv => kv.2))

/-- The requests finalized for one emission index over a whole stream. -/
def finalizedFor (loads : String → Option PyVal) (chunks : List ChunkDelta)
    (idx : Nat) : List ToolCallRequest :=
  (idxView (chunks.foldl (processChunk loads) {}) idx).2.2

/-- The finalization condition for one entry: an id, a name, and an
arguments buffer that parses as JSON. -/
def finalizableB (loads : String → Option PyVal) (e : AggEntry) : Bool :=
  e.id.isSome && e.name.isSome && (loads e.arguments).isSome

/-- The finalized request built from an entry whose id and name are
present. -/
def mkRequest (e : AggEntry) : ToolCallRequest :=
  ⟨e.id.getD "", "function", ⟨e.name.getD "", e.arguments⟩⟩

/-- The single-index automaton: the effect of one delta on its own
index's view.  `processToolCallChunk` acts on each index's view exactly
like this (proved below). -/
def slotStep (loads : String → Option PyVal)
    (v : AggEntry × Bool × List ToolCallRequest) (tc : ToolCallChunk) :
    AggEntry × Bool × List ToolCallRequest :=
  let e2 := entryStep v.1 tc
  if v.2.1 then (e2, v.2.1, v.2.2)
  else if finalizableB loads e2 then (e2, true, v.2.2 ++ [mkRequest e2])
  else (e2, v.2.1, v.2.2)

/-! ## Characterizations used to state the memory properties -/

/-- The budget walk of `get_messages`, seen from the newest message: the
greedy prefix (of the newest-first list) whose running total stays within
the budget, starting from `cur` already-charged tokens.  `selectRecent` is
proved to insert exactly this prefix behind the system message. -/
def budgetTake (max_tokens : Nat) : Nat → List Msg → List Msg
  | _, [] => []
  | cur, msg :: rest =>
    if cur + estimate_tokens msg ≤ max_tokens then
      msg :: budgetTake max_tokens (cur + estimate_tokens msg) rest
    else []

/-- Given the returned history suffix `tail`, the newest message of the
fetched window that was not returned (if any): the first message the
budget walk rejected. -/
def next_evicted (m : MemState) (tail : List Msg) : Option Msg :=
  ((recent_history m).reverse.drop tail.length).head?

/-! ## Concrete instances used by witnesses and counterexamples

Each `loads...` function below agrees with Python's `json.loads` at every
string it is applied to in a theorem. -/

/-- The serialized arguments `{"recipient": "user@example.com",
"subject": "Hi", "body": "Hello"}`. -/
def emailArgsJson : String :=
  "\x7b\"recipient\": \"user@example.com\", \"subject\": \"Hi\", \"body\": \"Hello\"\x7d"

/-- `json.loads` on `emailArgsJson`. -/
def loadsEmailArgs : String → Option PyVal := fun s =>
  if s = emailArgsJson then
    some (.pyDict [("recipient", .pyStr "user@example.com"),
                   ("subject", .pyStr "Hi"), ("body", .pyStr "Hello")])
  else none

/-- The dict literal returned by a successful `send_email` execution. -/
def emailResultDict : PyVal :=
  .pyDict [("status", .pyStr "success"), ("message", .pyStr "Email sent successfully")]

/-- The serialized arguments `{}`. -/
def emptyObjJson : String := "\x7b\x7d"

/-- `json.loads` on `emptyObjJson`. -/
def loadsEmptyObj : String → Option PyVal := fun s =>
  if s = emptyObjJson then some (.pyDict []) else none

/-- A stand-in for the file-manipulating branches of `PdfTool.execute`;
never reached by the theorems below. -/
def pdfRestUnused : String → List (String × PyVal) → Except PyExc PyVal :=
  fun _ _ => .error (.otherExc "pdf file operation not modelled")

/-- A stand-in for the HTTP fetch of `WeatherTool.execute`; never reached
by the theorems below. -/
def weatherRestUnused : List (String × PyVal) → Except PyExc PyVal :=
  fun _ => .error (.otherExc "network fetch not modelled")

/-- A fixed clock reading for the `get_current_datetime` witness. -/
def nowString : String := "Monday, 01 January 2024, 09:00:00 UTC"

/-- A serialized system message. -/
def sysMsgJson : Msg := "\x7b\"role\": \"system\", \"content\": \"You are OmniAgent.\"\x7d"

/-- A memory whose budget is smaller than the system message's own
estimated cost: `max_tokens = 0` while `sysMsgJson` costs
`sysMsgJson.length / 4 > 0` tokens. -/
def memTinyBudget : MemState :=
  { initialized := true, pingOk := true, system_message := some sysMsgJson
    max_tokens := 0, log := [sysMsgJson] }

/-- Two serialized history messages. -/
def userMsgJson : Msg := "\x7b\"role\": \"user\", \"content\": \"Hello\"\x7d"

/-- A serialized assistant message. -/
def asstMsgJson : Msg := "\x7b\"role\": \"assistant\", \"content\": \"Hi there\"\x7d"

/-- A ready memory holding the system message and two history messages. -/
def memSmall : MemState :=
  { initialized := true, pingOk := true, system_message := some sysMsgJson
    max_tokens := 100, log := [sysMsgJson, userMsgJson, asstMsgJson] }

/-- A memory whose liveness check fails. -/
def memDown : MemState :=
  { initialized := true, pingOk := false, system_message := some sysMsgJson
    max_tokens := 100, log := [] }

/-- The complete arguments `{"city":"NYC"}`. -/
def cityArgsJson : String := "\x7b\"city\":\"NYC\"\x7d"

/-- `json.loads` on `cityArgsJson` and on its strict prefix fragment
`{"city":` (which does not parse). -/
def loadsCity : String → Option PyVal := fun s =>
  if s = cityArgsJson then some (.pyDict [("city", .pyStr "NYC")]) else none

/-- The §8 scenario stream: index 0 arrives with id `c1` and name
`get_weather`, its arguments split as `{"city":` then `"NYC"}` across two
chunks. -/
def streamCity : List ChunkDelta :=
  [{ tool_calls := some [{ index := 0, id := some "c1", function := some { name := some "get_weather", arguments := some "\x7b\"city\":" } }] },
   { tool_calls := some [{ index := 0, function := some { arguments := some "\"NYC\"\x7d" } }] }]

/-- `json.loads` on `{}` and on `{} ` (JSON tolerates trailing
whitespace, so both parse to the empty object). -/
def loadsWs : String → Option PyVal := fun s =>
  if s = "\x7b\x7d" then some (.pyDict [])
  else if s = "\x7b\x7d " then some (.pyDict []) else none

/-- A stream whose index-0 arguments buffer already parses (`{}`) before
the id and name have arrived, and then grows by a whitespace fragment. -/
def streamWs : List ChunkDelta :=
  [{ tool_calls := some [{ index := 0, function := some { arguments := some "\x7b\x7d" } }] },
   { tool_calls := some [{ index := 0, id := some "c1", function := some { name := some "f", arguments := some " " } }] }]

/-- A `json.loads` that fails on every string. -/
def loadsNone : String → Option PyVal := fun _ => none

/-- A stream with a text delta and a tool call whose arguments never
parse by stream end. -/
def streamBad : List ChunkDelta :=
  [{ content := some "Hello" },
   { tool_calls := some [{ index := 0, id := some "x", function := some { name := some "g", arguments := some "\x7b'" } }] }]

/-- A first-completion stream carrying one complete tool call for
`get_current_datetime` with arguments `{}`. -/
def streamToolCall : List ChunkDelta :=
  [{ tool_calls := some [{ index := 0, id := some "t1", function := some { name := some "get_current_datetime", arguments := some "\x7b\x7d" } }] }]

/-- A second-completion stream carrying only text. -/
def streamText : List ChunkDelta := [{ content := some "Done" }]

/-- A concrete turn environment: one registered tool, a backend that
answers a request advertising tools with `streamToolCall` and a request
without tools with `streamText`, and simple concrete serializations. -/
def cfgW : TurnConfig :=
  { model := "gemini/gemini-2.0-flash"
    schemas := ["get_current_datetime_schema"]
    tool_map := [dateTimeTool nowString]
    loads := loadsEmptyObj
    backend := fun req =>
      match req.tools with
      | some _ => (streamToolCall, false)
      | none => (streamText, false)
    serializeAssistant := fun m =>
      match m.content with
      | some s => "\x7b\"role\": \"assistant\", \"content\": \"" ++ s ++ "\"\x7d"
      | none => "\x7b\"role\": \"assistant\", \"content\": null\x7d"
    serializeTool := fun content cid =>
      "\x7b\"role\": \"tool\", \"tool_call_id\": \"" ++ cid.getD "" ++ "\", \"content\": \"" ++ content ++ "\"\x7d"
    pyToStr := fun v => match v with | .pyStr s => s | _ => "<result>" }

/-- A ready memory for the orchestration witness. -/
def memForTurn : MemState :=
  { initialized := true, pingOk := true, system_message := some sysMsgJson
    max_tokens := 1000, log := [sysMsgJson] }

/-! ## Theorems: tool dispatcher -/

/-- The `try/except` conversion around `tool.execute` always produces an
`ok`, and any converted exception is a string. -/
lemma execResultToMessage_ok (function_name : String) (r : Except PyExc PyVal) :
    ∃ v, execResultToMessage function_name r = .ok v ∧ (v.isStr = true ∨ r = .ok v) := by
  match r with
  | .ok result => exact ⟨result, rfl, .inr rfl⟩
  | .error (.toolExecutionError e) => exact ⟨_, rfl, .inl rfl⟩
  | .error (.otherExc e) => exact ⟨_, rfl, .inl rfl⟩

/-- Post-parse dispatch always produces an `ok`; the value is a string
except when it is the value a resolved tool's `execute` returned. -/
lemma dispatchParsed_ok (tool_map : List PyTool) (fn : String) (fa : PyVal) :
    ∃ v, dispatchParsed tool_map fn fa = .ok v ∧
      (v.isStr = true ∨ ∃ t fields, findTool tool_map fn = some t ∧
        fa = .pyDict fields ∧ t.exec fields = .ok v) := by
  unfold dispatchParsed
  cases h : findTool tool_map fn with
  | none => exact ⟨_, rfl, .inl rfl⟩
  | some t =>
    cases fa with
    | pyDict fields =>
      obtain ⟨v, hv, hcase⟩ := execResultToMessage_ok fn (t.exec fields)
      refine ⟨v, by simpa [pyCallKw] using hv, ?_⟩
      rcases hcase with hs | hr
      · exact .inl hs
      · exact .inr ⟨t, fields, rfl, rfl, hr⟩
    | pyNone => exact ⟨_, rfl, .inl rfl⟩
    | pyBool b => exact ⟨_, rfl, .inl rfl⟩
    | pyInt n => exact ⟨_, rfl, .inl rfl⟩
    | pyStr s => exact ⟨_, rfl, .inl rfl⟩
    | pyList xs => exact ⟨_, rfl, .inl rfl⟩

/-- When the name is truthy and the arguments parse, the dispatcher is
post-parse dispatch on the parsed arguments. -/
lemma execute_tool_call_parsed (loads : String → Option PyVal)
    (tool_map : List PyTool) (tc : ToolCallData) (fn : String) (v : PyVal)
    (hf : truthy tc.fname = some fn) (hp : parsedArguments loads tc = some v) :
    execute_tool_call loads tool_map tc = dispatchParsed tool_map fn v := by
  unfold parsedArguments at hp
  cases ha : truthy tc.arguments with
  | none =>
    rw [ha] at hp
    have hv : PyVal.pyDict [] = v := Option.some.inj hp
    simp [execute_tool_call, hf, ha, hv]
  | some s =>
    rw [ha] at hp
    have hp' : loads s = some v := hp
    simp [execute_tool_call, hf, ha, hp']

/-- C2 (amended): for every raw tool-call input — missing function name,
arguments that are not valid JSON, a name not in the registry, a
registered tool whose execute raises a declared or undeclared exception,
or a correct call — the dispatcher `execute_tool_call` never propagates an
exception to its caller; every failure path returns a string, and on a
successful call the tool's own return value is passed through unchanged
(it need not be a string). -/
theorem execute_tool_call_never_raises (loads : String → Option PyVal)
    (tool_map : List PyTool) (tc : ToolCallData) :
    ∃ v, execute_tool_call loads tool_map tc = .ok v ∧
      (v.isStr = true ∨ ∃ fn t fields, truthy tc.fname = some fn ∧
        findTool tool_map fn = some t ∧
        parsedArguments loads tc = some (.pyDict fields) ∧ t.exec fields = .ok v) := by
  cases hf : truthy tc.fname with
  | none =>
    exact ⟨.pyStr "Error: Tool call missing function name.",
      by simp [execute_tool_call, hf], .inl rfl⟩
  | some fn =>
    cases ha : truthy tc.arguments with
    | none =>
      obtain ⟨v, hv, hcase⟩ := dispatchParsed_ok tool_map fn (.pyDict [])
      refine ⟨v, by simp [execute_tool_call, hf, ha, hv], ?_⟩
      rcases hcase with hs | ⟨t, fields, hfind, hfa, hex⟩
      · exact .inl hs
      · refine .inr ⟨fn, t, fields, rfl, hfind, ?_, hex⟩
        simp [parsedArguments, ha, ← hfa]
    | some s =>
      cases hl : loads s with
      | none =>
        exact ⟨.pyStr ("Error: Invalid JSON args for " ++ fn ++ ": " ++ s),
          by simp [execute_tool_call, hf, ha, hl], .inl rfl⟩
      | some fa =>
        obtain ⟨v, hv, hcase⟩ := dispatchParsed_ok tool_map fn fa
        refine ⟨v, by simp [execute_tool_call, hf, ha, hl, hv], ?_⟩
        rcases hcase with hs | ⟨t, fields, hfind, hfa, hex⟩
        · exact .inl hs
        · refine .inr ⟨fn, t, fields, rfl, hfind, ?_, hex⟩
          simp [parsedArguments, ha, hl, hfa]

/-- C2 (counterexample to the claim as stated): a correct call to the
registered `send_email` tool, with SMTP delivery succeeding, makes
`execute_tool_call` return the tool's dict result — not a string. -/
theorem execute_tool_call_dict_counterexample :
    execute_tool_call loadsEmailArgs [emailTool (.ok ())]
        ⟨some "call_0", some "send_email", some emailArgsJson⟩ = .ok emailResultDict ∧
      emailResultDict.isStr = false :=
  ⟨rfl, rfl⟩

/-- C4 (amended): the dispatcher itself performs no argument validation;
for a registered tool whose `execute` begins with
`self.validate_args(kwargs)`, dispatching a call with a missing required
parameter returns the error string naming the missing parameters, and no
exception reaches the caller. -/
theorem dispatch_validating_tool_names_missing (loads : String → Option PyVal)
    (tool_map : List PyTool) (tc : ToolCallData) (fn : String) (t : PyTool)
    (rest : List (String × PyVal) → Except PyExc PyVal)
    (fields : List (String × PyVal))
    (hf : truthy tc.fname = some fn)
    (ht : findTool tool_map fn = some t)
    (hexec : t.exec = validateThenExec t.required rest)
    (hp : parsedArguments loads tc = some (.pyDict fields))
    (hm : requiredMissing t.required fields ≠ []) :
    execute_tool_call loads tool_map tc =
      .ok (.pyStr ("Error executing tool " ++ fn ++ ": "
        ++ ("Missing required parameters: "
          ++ String.intercalate ", " (requiredMissing t.required fields)))) := by
  rw [execute_tool_call_parsed loads tool_map tc fn _ hf hp]
  have hne : (requiredMissing t.required fields).isEmpty = false := by
    cases hq : (requiredMissing t.required fields) with
    | nil => exact absurd hq hm
    | cons a l => rfl
  simp [dispatchParsed, ht, pyCallKw, hexec, validateThenExec, validate_args, hne,
    execResultToMessage]

/-- C4 (witness): dispatching `get_current_weather` (required parameter
`location`, validated inside `execute`) with arguments `{}` returns the
error string naming the missing parameter. -/
theorem dispatch_validating_tool_names_missing_witness :
    execute_tool_call loadsEmptyObj [weatherTool weatherRestUnused]
        ⟨some "call_2", some "get_current_weather", some emptyObjJson⟩ =
      .ok (.pyStr "Error executing tool get_current_weather: Missing required parameters: location") :=
  dispatch_validating_tool_names_missing loadsEmptyObj [weatherTool weatherRestUnused]
    ⟨some "call_2", some "get_current_weather", some emptyObjJson⟩
    "get_current_weather" (weatherTool weatherRestUnused) weatherRestUnused []
    rfl rfl rfl rfl (by decide)

/-- C4 (counterexample to the claim as stated): the registered
`pdf_operations` tool has required parameter `operation` but its `execute`
never calls `validate_args`; dispatching it with arguments `{}` returns
the unsupported-operation error of the tool body, not the missing-parameter
error that argument validation produces on these arguments. -/
theorem dispatch_skips_validation_counterexample :
    execute_tool_call loadsEmptyObj [pdfTool pdfRestUnused]
        ⟨some "call_1", some "pdf_operations", some emptyObjJson⟩ =
      .ok (.pyStr "Error executing tool pdf_operations: Unsupported PDF operation: None") ∧
    validate_args (pdfTool pdfRestUnused).required (.pyDict []) =
      .error (.toolExecutionError "Missing required parameters: operation") ∧
    "Error executing tool pdf_operations: Unsupported PDF operation: None" ≠
      "Error executing tool pdf_operations: Missing required parameters: operation" :=
  ⟨rfl, rfl, by decide⟩

/-- C9: a dispatched call whose arguments string is absent or empty is
given the empty mapping `{}` as arguments, and the resolved tool is
invoked with no arguments — the invalid-JSON error path is not taken and
`json.loads` is never consulted. -/
theorem dispatch_empty_arguments_as_empty_mapping (loads : String → Option PyVal)
    (tool_map : List PyTool) (tc : ToolCallData) (fn : String) (t : PyTool)
    (hf : truthy tc.fname = some fn)
    (ha : tc.arguments = none ∨ tc.arguments = some "")
    (ht : findTool tool_map fn = some t) :
    execute_tool_call loads tool_map tc = dispatchParsed tool_map fn (.pyDict []) ∧
      dispatchParsed tool_map fn (.pyDict []) = execResultToMessage fn (t.exec []) := by
  have hp : parsedArguments loads tc = some (.pyDict []) := by
    rcases ha with h | h <;> simp [parsedArguments, truthy, h]
  exact ⟨execute_tool_call_parsed loads tool_map tc fn _ hf hp,
    by simp [dispatchParsed, ht, pyCallKw]⟩

/-- C9 (witness): dispatching the registered `get_current_datetime` tool
with an absent arguments string executes it on no arguments. -/
theorem dispatch_empty_arguments_witness :
    execute_tool_call (fun _ => none) [dateTimeTool nowString]
        ⟨some "call_3", some "get_current_datetime", none⟩ =
      .ok (.pyStr ("Current date and time: " ++ nowString)) := by
  have h := dispatch_empty_arguments_as_empty_mapping (fun _ => none)
    [dateTimeTool nowString] ⟨some "call_3", some "get_current_datetime", none⟩
    "get_current_datetime" (dateTimeTool nowString) rfl (Or.inl rfl) rfl
  exact h.1.trans (h.2.trans rfl)

/-! ## Theorems: streaming response assembler -/

lemma aggGet_cons_self (agg : List (Nat × AggEntry)) (idx : Nat) (e : AggEntry) :
    aggGet ((idx, e) :: agg) idx = e := by
  simp [aggGet]

lemma aggGet_cons_ne (agg : List (Nat × AggEntry)) (i idx : Nat) (e : AggEntry)
    (h : i ≠ idx) : aggGet ((i, e) :: agg) idx = aggGet agg idx := by
  simp [aggGet, List.find?_cons, h]

/-- `processToolCallChunk`, normalized: the entry is always re-bound, and
emission happens exactly when the index is not yet completed and the
updated entry is finalizable. -/
lemma processToolCallChunk_eq (loads : String → Option PyVal) (st : AsmState)
    (tc : ToolCallChunk) :
    processToolCallChunk loads st tc =
      (let e2 := entryStep (aggGet st.tool_calls_agg tc.index) tc
       let st' := { st with tool_calls_agg := (tc.index, e2) :: st.tool_calls_agg }
       if st.completed_tool_call_indices.contains tc.index then st'
       else if finalizableB loads e2 then
         { st' with
           final_tool_calls_list := st'.final_tool_calls_list ++ [(tc.index, mkRequest e2)],
           completed_tool_call_indices := tc.index :: st'.completed_tool_call_indices }
       else st') := by
  simp only [processToolCallChunk, finalizableB, mkRequest]
  cases hid : (entryStep (aggGet st.tool_calls_agg tc.index) tc).id with
  | none => simp [hid]
  | some cid =>
    cases hname : (entryStep (aggGet st.tool_calls_agg tc.index) tc).name with
    | none => simp [hid, hname]
    | some cname =>
      simp only [hid, hname, Option.isSome_some, Bool.true_and]
      by_cases hc : tc.index ∈ st.completed_tool_call_indices
      · simp [hc]
      · cases hl : loads (entryStep (aggGet st.tool_calls_agg tc.index) tc).arguments with
        | none => simp [hc, hl]
        | some v => simp [hc, hl, Option.getD]

/-- One delta changes exactly its own index's view, and does so like the
single-index automaton. -/
lemma idxView_step (loads : String → Option PyVal) (st : AsmState)
    (tc : ToolCallChunk) (idx : Nat) :
    idxView (processToolCallChunk loads st tc) idx =
      if tc.index = idx then slotStep loads (idxView st idx) tc
      else idxView st idx := by
  rw [processToolCallChunk_eq]
  by_cases h : tc.index = idx
  · subst h
    simp only [idxView, slotStep]
    by_cases hc : tc.index ∈ st.completed_tool_call_indices
    · simp [hc, aggGet_cons_self]
    · by_cases hf : finalizableB loads (entryStep (aggGet st.tool_calls_agg tc.index) tc)
      · simp [hc, hf, aggGet_cons_self, List.filter_append]
      · simp [hc, hf, aggGet_cons_self]
  · have hne : (tc.index == idx) = false := by simp [h]
    simp only [idxView, if_neg h]
    by_cases hc : tc.index ∈ st.completed_tool_call_indices
    · simp [hc, aggGet_cons_ne _ _ _ _ h]
    · by_cases hf : finalizableB loads (entryStep (aggGet st.tool_calls_agg tc.index) tc)
      · have h' : idx ≠ tc.index := Ne.symm h
        simp [hc, hf, aggGet_cons_ne _ _ _ _ h, List.filter_append, hne, h']
      · simp [hc, hf, aggGet_cons_ne _ _ _ _ h]

/-- Folding deltas acts on each index's view as the single-index
automaton folded over that index's deltas. -/
lemma idxView_foldTCs (loads : String → Option PyVal) (l : List ToolCallChunk) :
    ∀ (st : AsmState) (idx : Nat),
      idxView (l.foldl (processToolCallChunk loads) st) idx =
        (tcsFor idx l).foldl (slotStep loads) (idxView st idx) := by
  induction l with
  | nil => intro st idx; rfl
  | cons tc rest ih =>
    intro st idx
    rw [List.foldl_cons, ih]
    by_cases h : tc.index = idx
    · have hl : tcsFor idx (tc :: rest) = tc :: tcsFor idx rest := by
        simp [tcsFor, List.filter_cons, h]
      rw [hl, List.foldl_cons, idxView_step, if_pos h]
    · have hl : tcsFor idx (tc :: rest) = tcsFor idx rest := by
        simp [tcsFor, List.filter_cons, h]
      rw [hl, idxView_step, if_neg h]

lemma content_processToolCallChunk (loads : String → Option PyVal) (st : AsmState)
    (tc : ToolCallChunk) :
    (processToolCallChunk loads st tc).full_response_content = st.full_response_content := by
  rw [processToolCallChunk_eq]
  dsimp only
  split_ifs <;> rfl

lemma content_foldTCs (loads : String → Option PyVal) (l : List ToolCallChunk) :
    ∀ st : AsmState,
      (l.foldl (processToolCallChunk loads) st).full_response_content =
        st.full_response_content := by
  induction l with
  | nil => intro st; rfl
  | cons tc rest ih =>
    intro st
    rw [List.foldl_cons, ih, content_processToolCallChunk]

lemma idxView_content_update (st : AsmState) (x : String) (idx : Nat) :
    idxView { st with full_response_content := x } idx = idxView st idx := rfl

/-- One chunk appends its text fragment to the accumulated content. -/
lemma content_processChunk (loads : String → Option PyVal) (st : AsmState)
    (c : ChunkDelta) :
    (processChunk loads st c).full_response_content =
      st.full_response_content ++ contentFragOf c := by
  unfold processChunk contentFragOf
  cases hc : truthy c.content with
  | none =>
    cases c.tool_calls with
    | none => simp [String.append_empty]
    | some tcs => simp [content_foldTCs, String.append_empty]
  | some d =>
    cases c.tool_calls with
    | none => simp
    | some tcs => simp [content_foldTCs]

/-- One chunk changes each index's view by its own deltas only. -/
lemma idxView_processChunk (loads : String → Option PyVal) (st : AsmState)
    (c : ChunkDelta) (idx : Nat) :
    idxView (processChunk loads st c) idx =
      (tcsFor idx (chunkTCs c)).foldl (slotStep loads) (idxView st idx) := by
  unfold processChunk chunkTCs
  cases hc : truthy c.content with
  | none =>
    cases c.tool_calls with
    | none => rfl
    | some tcs => simp [idxView_foldTCs]
  | some d =>
    cases c.tool_calls with
    | none => rfl
    | some tcs => simp [idxView_foldTCs, idxView_content_update]

/-- Over a whole stream, the accumulated content is the concatenation of
the truthy text deltas. -/
lemma asm_content (loads : String → Option PyVal) (chunks : List ChunkDelta) :
    ∀ st : AsmState,
      (chunks.foldl (processChunk loads) st).full_response_content =
        st.full_response_content ++ joinAll (chunks.map contentFragOf) := by
  induction chunks with
  | nil => intro st; simp [joinAll, String.append_empty]
  | cons c rest ih =>
    intro st
    rw [List.foldl_cons, ih, content_processChunk]
    simp [joinAll, String.append_assoc]

/-- Over a whole stream, each index's view is the single-index automaton
folded over that index's deltas. -/
lemma asm_idxView (loads : String → Option PyVal) (chunks : List ChunkDelta) :
    ∀ (st : AsmState) (idx : Nat),
      idxView (chunks.foldl (processChunk loads) st) idx =
        (tcsFor idx (streamTCs chunks)).foldl (slotStep loads) (idxView st idx) := by
  induction chunks with
  | nil => intro st idx; rfl
  | cons c rest ih =>
    intro st idx
    have hs : streamTCs (c :: rest) = chunkTCs c ++ streamTCs rest := by
      simp [streamTCs]
    rw [List.foldl_cons, ih, hs]
    have hsplit : tcsFor idx (chunkTCs c ++ streamTCs rest) =
        tcsFor idx (chunkTCs c) ++ tcsFor idx (streamTCs rest) := by
      simp [tcsFor, List.filter_append]
    rw [hsplit, List.foldl_append, idxView_processChunk]

lemma slotStep_fst (loads : String → Option PyVal)
    (v : AggEntry × Bool × List ToolCallRequest) (tc : ToolCallChunk) :
    (slotStep loads v tc).1 = entryStep v.1 tc := by
  simp only [slotStep]
  split_ifs <;> rfl

lemma foldl_slotStep_fst (loads : String → Option PyVal) (l : List ToolCallChunk) :
    ∀ v, (l.foldl (slotStep loads) v).1 = l.foldl entryStep v.1 := by
  induction l with
  | nil => intro v; rfl
  | cons tc rest ih =>
    intro v
    rw [List.foldl_cons, List.foldl_cons, ih, slotStep_fst]

/-- One delta appends exactly its (truthy) arguments fragment to the
buffer. -/
lemma entryStep_args (e : AggEntry) (tc : ToolCallChunk) :
    (entryStep e tc).arguments = e.arguments ++ fragOf tc := by
  unfold entryStep fragOf
  cases tc.function with
  | none =>
    cases hid : truthy tc.id <;> simp [String.append_empty]
  | some f =>
    cases hid : truthy tc.id <;> cases hn : truthy f.name <;>
      cases ha : truthy f.arguments <;> simp [hid, hn, ha, String.append_empty]

/-- The buffer after a sequence of deltas is the concatenation of their
fragments. -/
lemma foldl_entryStep_args (l : List ToolCallChunk) :
    ∀ e : AggEntry, (l.foldl entryStep e).arguments =
      e.arguments ++ joinAll (l.map fragOf) := by
  induction l with
  | nil => intro e; simp [joinAll, String.append_empty]
  | cons tc rest ih =>
    intro e
    rw [List.foldl_cons, ih, entryStep_args]
    simp [joinAll, String.append_assoc]

/-- A finalized index stays finalized and emits nothing further; its
entry keeps absorbing deltas. -/
lemma foldl_slotStep_done (loads : String → Option PyVal) (l : List ToolCallChunk) :
    ∀ (e : AggEntry) (fs : List ToolCallRequest),
      l.foldl (slotStep loads) (e, true, fs) = (l.foldl entryStep e, true, fs) := by
  induction l with
  | nil => intro e fs; rfl
  | cons tc rest ih =>
    intro e fs
    rw [List.foldl_cons, List.foldl_cons]
    have hs : slotStep loads (e, true, fs) tc = (entryStep e tc, true, fs) := by
      simp [slotStep]
    rw [hs, ih]

/-- If no prefix of the deltas makes the entry finalizable, the automaton
never finalizes and emits nothing. -/
lemma foldl_slotStep_never (loads : String → Option PyVal) (l : List ToolCallChunk) :
    ∀ (e : AggEntry) (fs : List ToolCallRequest),
      (∀ k, 1 ≤ k → k ≤ l.length →
        finalizableB loads ((l.take k).foldl entryStep e) = false) →
      l.foldl (slotStep loads) (e, false, fs) = (l.foldl entryStep e, false, fs) := by
  induction l with
  | nil => intro e fs _; rfl
  | cons tc rest ih =>
    intro e fs h
    have h1 : finalizableB loads (entryStep e tc) = false := by
      simpa [List.take_succ_cons] using h 1 (by omega) (by simp)
    rw [List.foldl_cons]
    have hs : slotStep loads (e, false, fs) tc = (entryStep e tc, false, fs) := by
      simp [slotStep, h1]
    rw [hs, ih, List.foldl_cons]
    intro k hk1 hk2
    have := h (k + 1) (by omega) (by simpa using Nat.succ_le_succ hk2)
    simpa [List.take_succ_cons] using this

/-- If the entry first becomes finalizable after the `k`-th delta, the
automaton emits exactly one request there: the one built from the entry
at that point. -/
lemma foldl_slotStep_emit (loads : String → Option PyVal) (l : List ToolCallChunk) :
    ∀ (e : AggEntry) (fs : List ToolCallRequest) (k : Nat), 1 ≤ k → k ≤ l.length →
      finalizableB loads ((l.take k).foldl entryStep e) = true →
      (∀ j, 1 ≤ j → j < k →
        finalizableB loads ((l.take j).foldl entryStep e) = false) →
      l.foldl (slotStep loads) (e, false, fs) =
        (l.foldl entryStep e, true, fs ++ [mkRequest ((l.take k).foldl entryStep e)]) := by
  induction l with
  | nil =>
    intro e fs k hk1 hk2
    simp at hk2
    omega
  | cons tc rest ih =>
    intro e fs k hk1 hk2 hfin hmin
    by_cases h1 : finalizableB loads (entryStep e tc) = true
    · have hk : k = 1 := by
        by_contra hne
        have h2 := hmin 1 (by omega) (by omega)
        rw [List.take_succ_cons, List.take_zero] at h2
        simp only [List.foldl_cons, List.foldl_nil] at h2
        rw [h1] at h2
        cases h2
      subst hk
      rw [List.foldl_cons]
      have hs : slotStep loads (e, false, fs) tc =
          (entryStep e tc, true, fs ++ [mkRequest (entryStep e tc)]) := by
        simp [slotStep, h1]
      rw [hs, foldl_slotStep_done]
      simp [List.take_succ_cons]
    · have hk2' : 2 ≤ k := by
        rcases Nat.lt_or_ge k 2 with hlt | hge
        · have hk : k = 1 := by omega
          subst hk
          rw [List.take_succ_cons, List.take_zero] at hfin
          simp only [List.foldl_cons, List.foldl_nil] at hfin
          exact absurd hfin h1
        · exact hge
      obtain ⟨k', rfl⟩ : ∃ k', k = k' + 1 := ⟨k - 1, by omega⟩
      rw [List.foldl_cons]
      have hs : slotStep loads (e, false, fs) tc = (entryStep e tc, false, fs) := by
        simp [slotStep, h1]
      rw [hs]
      have hrec := ih (entryStep e tc) fs k' (by omega) (by simpa using hk2)
        (by simpa [List.take_succ_cons] using hfin)
        (by
          intro j hj1 hj2
          have := hmin (j + 1) (by omega) (by omega)
          simpa [List.take_succ_cons] using this)
      rw [hrec, List.foldl_cons]
      simp [List.take_succ_cons]

/-- Every finalized entry of the list was appended with a parsing
arguments buffer. -/
lemma finals_valid_step (loads : String → Option PyVal) (st : AsmState)
    (tc : ToolCallChunk) :
    ∀ kv, kv ∈ (processToolCallChunk loads st tc).final_tool_calls_list →
      kv ∈ st.final_tool_calls_list ∨ (loads kv.2.function.arguments).isSome = true := by
  rw [processToolCallChunk_eq]
  dsimp only
  split_ifs with hc hf
  · intro kv h
    exact .inl h
  · intro kv h
    rw [List.mem_append] at h
    rcases h with h | h
    · exact .inl h
    · right
      rw [List.mem_singleton] at h
      subst h
      have : (loads (entryStep (aggGet st.tool_calls_agg tc.index) tc).arguments).isSome = true := by
        have hf' := hf
        unfold finalizableB at hf'
        simp only [Bool.and_eq_true] at hf'
        exact hf'.2
      simpa [mkRequest] using this
  · intro kv h
    exact .inl h

lemma finals_valid_foldTCs (loads : String → Option PyVal) (l : List ToolCallChunk) :
    ∀ (st : AsmState) kv,
      kv ∈ (l.foldl (processToolCallChunk loads) st).final_tool_calls_list →
      kv ∈ st.final_tool_calls_list ∨ (loads kv.2.function.arguments).isSome = true := by
  induction l with
  | nil => intro st kv h; exact .inl h
  | cons tc rest ih =>
    intro st kv h
    rw [List.foldl_cons] at h
    rcases ih _ kv h with h2 | h2
    · exact finals_valid_step loads st tc kv h2
    · exact .inr h2

lemma finals_valid_chunk (loads : String → Option PyVal) (st : AsmState)
    (c : ChunkDelta) :
    ∀ kv, kv ∈ (processChunk loads st c).final_tool_calls_list →
      kv ∈ st.final_tool_calls_list ∨ (loads kv.2.function.arguments).isSome = true := by
  unfold processChunk
  cases hc : truthy c.content with
  | none =>
    cases c.tool_calls with
    | none => intro kv h; exact .inl h
    | some tcs => intro kv h; exact finals_valid_foldTCs loads tcs _ kv h
  | some d =>
    cases c.tool_calls with
    | none => intro kv h; exact .inl h
    | some tcs =>
      intro kv h
      have h' : kv ∈ (List.foldl (processToolCallChunk loads)
          { st with full_response_content := st.full_response_content ++ d }
          tcs).final_tool_calls_list := h
      exact finals_valid_foldTCs loads tcs
        { st with full_response_content := st.full_response_content ++ d } kv h'

lemma finals_valid_stream (loads : String → Option PyVal) (chunks : List ChunkDelta) :
    ∀ (st : AsmState) kv,
      kv ∈ (chunks.foldl (processChunk loads) st).final_tool_calls_list →
      kv ∈ st.final_tool_calls_list ∨ (loads kv.2.function.arguments).isSome = true := by
  induction chunks with
  | nil => intro st kv h; exact .inl h
  | cons c rest ih =>
    intro st kv h
    rw [List.foldl_cons] at h
    rcases ih _ kv h with h2 | h2
    · exact finals_valid_chunk loads st c kv h2
    · exact .inr h2

lemma exists_min_nat {p : Nat → Prop} (h : ∃ k, p k) :
    ∃ k, p k ∧ ∀ j, j < k → ¬ p j := by
  classical
  exact ⟨Nat.find h, Nat.find_spec h, fun j hj => Nat.find_min h hj⟩

/-- The fresh accumulator shows every index as untouched. -/
lemma idxView_init (idx : Nat) : idxView {} idx = ({}, false, []) := rfl

/-- The requests finalized for an index are the single-index automaton's
emissions over that index's deltas. -/
lemma finalizedFor_eq (loads : String → Option PyVal) (chunks : List ChunkDelta)
    (idx : Nat) :
    finalizedFor loads chunks idx =
      ((tcsFor idx (streamTCs chunks)).foldl (slotStep loads) ({}, false, [])).2.2 := by
  unfold finalizedFor
  rw [asm_idxView loads chunks {} idx, idxView_init]

/-- C3 (amended): for every chunk stream and every emission index, the
assembler finalizes at most one ToolCallRequest for that index; any
finalized request was emitted at the first point at which the index had
both an id and a name and its fragment concatenation parsed as valid
JSON, its arguments field being the concatenation of all fragments
received up to that point; and whenever such a point exists, exactly one
request is finalized. -/
theorem assembler_fragment_reassembly (loads : String → Option PyVal)
    (chunks : List ChunkDelta) (idx : Nat) :
    (finalizedFor loads chunks idx).length ≤ 1 ∧
    (∀ r, r ∈ finalizedFor loads chunks idx →
      ∃ k, 1 ≤ k ∧ k ≤ (tcsFor idx (streamTCs chunks)).length ∧
        (((tcsFor idx (streamTCs chunks)).take k).foldl entryStep {}).id = some r.id ∧
        (((tcsFor idx (streamTCs chunks)).take k).foldl entryStep {}).name =
          some r.function.name ∧
        r.function.arguments = joinAll (((tcsFor idx (streamTCs chunks)).take k).map fragOf) ∧
        (loads r.function.arguments).isSome = true ∧
        (∀ j, 1 ≤ j → j < k →
          finalizableB loads
            (((tcsFor idx (streamTCs chunks)).take j).foldl entryStep {}) = false)) ∧
    ((∃ k, 1 ≤ k ∧ k ≤ (tcsFor idx (streamTCs chunks)).length ∧
        finalizableB loads
          (((tcsFor idx (streamTCs chunks)).take k).foldl entryStep {}) = true) →
      (finalizedFor loads chunks idx).length = 1) := by
  rw [finalizedFor_eq]
  by_cases hex : ∃ k, 1 ≤ k ∧ k ≤ (tcsFor idx (streamTCs chunks)).length ∧
      finalizableB loads (((tcsFor idx (streamTCs chunks)).take k).foldl entryStep {}) = true
  · obtain ⟨k0, ⟨hk01, hk0len, hk0fin⟩, hmin0⟩ := exists_min_nat hex
    have hminB : ∀ j, 1 ≤ j → j < k0 →
        finalizableB loads (((tcsFor idx (streamTCs chunks)).take j).foldl entryStep {}) = false := by
      intro j hj1 hj2
      have hnot := hmin0 j hj2
      cases hfb : finalizableB loads (((tcsFor idx (streamTCs chunks)).take j).foldl entryStep {}) with
      | false => rfl
      | true => exact absurd ⟨hj1, by omega, hfb⟩ hnot
    have hrun := foldl_slotStep_emit loads (tcsFor idx (streamTCs chunks)) {} []
      k0 hk01 hk0len hk0fin hminB
    rw [hrun]
    refine ⟨by simp, ?_, fun _ => by simp⟩
    intro r hr
    simp only [List.nil_append, List.mem_singleton] at hr
    subst hr
    have hfin' := hk0fin
    unfold finalizableB at hfin'
    simp only [Bool.and_eq_true] at hfin'
    obtain ⟨⟨hid, hname⟩, hargs⟩ := hfin'
    obtain ⟨i0, hi0⟩ := Option.isSome_iff_exists.mp hid
    obtain ⟨n0, hn0⟩ := Option.isSome_iff_exists.mp hname
    refine ⟨k0, hk01, hk0len, ?_, ?_, ?_, ?_, hminB⟩
    · rw [hi0]; simp [mkRequest, hi0]
    · rw [hn0]; simp [mkRequest, hn0]
    · show (((tcsFor idx (streamTCs chunks)).take k0).foldl entryStep {}).arguments = _
      rw [foldl_entryStep_args]
      rfl
    · exact hargs
  · have hnever : ∀ k, 1 ≤ k → k ≤ (tcsFor idx (streamTCs chunks)).length →
        finalizableB loads (((tcsFor idx (streamTCs chunks)).take k).foldl entryStep {}) = false := by
      intro k hk1 hk2
      cases hfb : finalizableB loads (((tcsFor idx (streamTCs chunks)).take k).foldl entryStep {}) with
      | false => rfl
      | true => exact absurd ⟨k, hk1, hk2, hfb⟩ hex
    have hrun := foldl_slotStep_never loads (tcsFor idx (streamTCs chunks)) {} [] hnever
    rw [hrun]
    refine ⟨by simp, ?_, fun hcon => absurd hcon hex⟩
    intro r hr
    simp at hr

/-- C3 (witness): the §8 scenario — index 0 with id `c1`, name
`get_weather`, arguments `{"city":` then `"NYC"}` across two chunks —
finalizes exactly one request. -/
theorem assembler_fragment_reassembly_witness :
    (finalizedFor loadsCity streamCity 0).length = 1 :=
  (assembler_fragment_reassembly loadsCity streamCity 0).2.2
    ⟨2, by decide, by decide, by decide⟩

/-- C3 (counterexample to the claim as stated): in this stream the
index-0 fragment concatenation first parses as valid JSON after the first
fragment (`{}`), before the id and name have arrived; a further
whitespace fragment arrives together with them, and the finalized
request's arguments are `{} ` — the concatenation up to the finalization
point — not the concatenation up to the point where it first parsed. -/
theorem assembler_first_parse_counterexample :
    handle_streaming_response loadsWs streamWs false =
      { role := "assistant", content := none,
        tool_calls := some [{ id := "c1", type := "function",
                              function := { name := "f", arguments := "\x7b\x7d " } }] } ∧
    joinAll (((tcsFor 0 (streamTCs streamWs)).take 1).map fragOf) = "\x7b\x7d" ∧
    (loadsWs "\x7b\x7d").isSome = true ∧
    "\x7b\x7d " ≠ "\x7b\x7d" :=
  ⟨rfl, rfl, rfl, by decide⟩

/-- C5: for every yielded chunk prefix — in particular one cut short by a
mid-iteration stream error, whose flag provably does not change the
result — the assembler returns an assistant message whose content is the
accumulated text (null if none) and whose tool_calls is exactly the
finalized list (null if none finalized); every reported call's arguments
parse as JSON, so a call whose buffer never parses by stream end appears
in neither field. -/
theorem assembler_returns_accumulated (loads : String → Option PyVal)
    (chunks : List ChunkDelta) (streamErrored : Bool) :
    handle_streaming_response loads chunks streamErrored =
      handle_streaming_response loads chunks false ∧
    (handle_streaming_response loads chunks streamErrored).role = "assistant" ∧
    (handle_streaming_response loads chunks streamErrored).content =
      (if joinAll (chunks.map contentFragOf) = "" then none
       else some (joinAll (chunks.map contentFragOf))) ∧
    (∀ tcs, (handle_streaming_response loads chunks streamErrored).tool_calls = some tcs →
      tcs ≠ [] ∧ ∀ r ∈ tcs, (loads r.function.arguments).isSome = true) ∧
    ((handle_streaming_response loads chunks streamErrored).tool_calls = none →
      ∀ idx, finalizedFor loads chunks idx = []) := by
  have hcontent : (chunks.foldl (processChunk loads) {}).full_response_content =
      joinAll (chunks.map contentFragOf) := asm_content loads chunks {}
  refine ⟨rfl, rfl, ?_, ?_, ?_⟩
  · simp only [handle_streaming_response]
    rw [hcontent]
  · intro tcs htcs
    simp only [handle_streaming_response] at htcs
    by_cases hf : (chunks.foldl (processChunk loads) {}).final_tool_calls_list = []
    · rw [if_pos hf] at htcs
      cases htcs
    · rw [if_neg hf] at htcs
      obtain rfl := Option.some.inj htcs
      refine ⟨by simp [hf], ?_⟩
      intro r hr
      rw [List.mem_map] at hr
      obtain ⟨kv, hkv, rfl⟩ := hr
      rcases finals_valid_stream loads chunks {} kv hkv with h | h
      · simp at h
      · exact h
  · intro hnone idx
    simp only [handle_streaming_response] at hnone
    by_cases hf : (chunks.foldl (processChunk loads) {}).final_tool_calls_list = []
    · unfold finalizedFor idxView
      rw [hf]
      rfl
    · rw [if_neg hf] at hnone
      cases hnone

/-- C5 (witness): a stream with a text delta, a tool call whose
arguments never parse, and a mid-iteration error still returns the
accumulated text; the unparsed call is reported nowhere. -/
theorem assembler_returns_accumulated_witness :
    handle_streaming_response loadsNone streamBad true =
      { role := "assistant", content := some "Hello", tool_calls := none } ∧
    finalizedFor loadsNone streamBad 0 = [] :=
  ⟨rfl, (assembler_returns_accumulated loadsNone streamBad true).2.2.2.2 rfl 0⟩

/-! ## Theorems: bounded persistent memory -/

lemma sumTokens_nil : sumTokens [] = 0 := rfl

lemma sumTokens_cons (m : Msg) (l : List Msg) :
    sumTokens (m :: l) = estimate_tokens m + sumTokens l := by
  simp [sumTokens]

lemma sumTokens_reverse (l : List Msg) : sumTokens l.reverse = sumTokens l := by
  simp [sumTokens, List.sum_reverse]

lemma pyInsert_cons_one (s : Msg) (tail : List Msg) (m : Msg) :
    pyInsert (s :: tail) 1 m = s :: m :: tail := by
  simp [pyInsert]

/-- The budget walk inserts, behind the head of its accumulator, exactly
the reversed greedy prefix of its (newest-first) input. -/
lemma selectRecent_cons (B : Nat) (l : List Msg) :
    ∀ (cur : Nat) (s : Msg) (tail : List Msg),
      selectRecent B l cur (s :: tail) = s :: ((budgetTake B cur l).reverse ++ tail) := by
  induction l with
  | nil => intro cur s tail; simp [selectRecent, budgetTake]
  | cons m rest ih =>
    intro cur s tail
    simp only [selectRecent, budgetTake]
    by_cases h : cur + estimate_tokens m ≤ B
    · rw [if_pos h, if_pos h, pyInsert_cons_one, ih]
      simp
    · rw [if_neg h, if_neg h]
      simp

/-- The greedy prefix keeps the running total within the budget. -/
lemma budgetTake_sum (B : Nat) (l : List Msg) :
    ∀ cur, sumTokens (budgetTake B cur l) ≤ B - cur := by
  induction l with
  | nil => intro cur; simp [budgetTake, sumTokens]
  | cons m rest ih =>
    intro cur
    simp only [budgetTake]
    by_cases h : cur + estimate_tokens m ≤ B
    · rw [if_pos h, sumTokens_cons]
      have := ih (cur + estimate_tokens m)
      omega
    · rw [if_neg h]; simp [sumTokens]

/-- The greedy prefix is a prefix, and it is maximal: the next message
(if any) would push the running total past the budget. -/
lemma budgetTake_spec (B : Nat) (l : List Msg) :
    ∀ cur, ∃ k, k ≤ l.length ∧ budgetTake B cur l = l.take k ∧
      (∀ m, (l.drop k).head? = some m →
        ¬ (cur + sumTokens (l.take k) + estimate_tokens m ≤ B)) := by
  induction l with
  | nil =>
    intro cur
    exact ⟨0, by simp, by simp [budgetTake], by simp⟩
  | cons mm rest ih =>
    intro cur
    by_cases h : cur + estimate_tokens mm ≤ B
    · obtain ⟨k, hk, hbt, hmax⟩ := ih (cur + estimate_tokens mm)
      refine ⟨k + 1, by simpa using Nat.succ_le_succ hk, ?_, ?_⟩
      · simp only [budgetTake, if_pos h, List.take_succ_cons, hbt]
      · intro m hm
        rw [List.drop_succ_cons] at hm
        have := hmax m hm
        rw [List.take_succ_cons, sumTokens_cons]
        omega
    · refine ⟨0, by simp, by simp [budgetTake, h], ?_⟩
      intro m hm
      simp only [List.drop_zero, List.head?_cons, Option.some.injEq] at hm
      subst hm
      simp only [List.take_zero, sumTokens_nil]
      omega

lemma reverse_take_of_reverse (l : List Msg) (k : Nat) (hk : k ≤ l.length) :
    (l.reverse.take k).reverse = l.drop (l.length - k) := by
  have h1 : (l.drop (l.length - k)).reverse = l.reverse.take k := by
    rw [List.reverse_drop]
    congr 1
    omega
  rw [← h1, List.reverse_reverse]

/-- With a configured system message the fetch start is never 0: the
persisted copy of the system message at index 0 is always skipped. -/
lemma fetch_start_pos (m : MemState) (h : m.system_message.isSome = true) :
    1 ≤ fetch_start m := by
  unfold fetch_start
  rw [h]
  by_cases h0 : m.log.length - m.max_tokens / CHARS_PER_TOKEN_ESTIMATE * 5 = 0
  · simp [h0]
  · simp [h0]
    omega

/-- With a ready store and a configured system message, `get_messages` is
the system message followed by the reversed greedy prefix of the fetched
window. -/
lemma get_messages_ready (m : MemState) (s : Msg)
    (hr : is_ready m = true) (hs : m.system_message = some s) :
    get_messages m =
      s :: (budgetTake m.max_tokens (estimate_tokens s) (recent_history m).reverse).reverse := by
  have h := selectRecent_cons m.max_tokens (recent_history m).reverse (estimate_tokens s) s []
  simpa [get_messages, hr, hs] using h

/-- C1 (amended): with a ready store, a configured system message and any
appended history, `get_messages` returns the system message first,
followed by a contiguous suffix of the most recent persisted messages in
chronological order, where each message's cost is its serialized length
divided by 4; the cumulative cost of the returned history suffix is at
most the budget B (the system message's own cost is charged on top of
this, so the whole list fits whenever the system message alone does); and
no older message is admitted in place of a newer one that fits: the
suffix is contiguous-from-newest, and the next older message of the
fetched window, if any, would exceed the budget. -/
theorem get_messages_window_characterization (B : Nat) (s : Msg) (ms : List Msg) :
    ∃ tail : List Msg,
      get_messages ⟨true, true, some s, B, s :: ms⟩ = s :: tail ∧
      (∃ k, tail = ms.drop k) ∧
      sumTokens tail ≤ B ∧
      (∀ m, next_evicted ⟨true, true, some s, B, s :: ms⟩ tail = some m →
        B < estimate_tokens s + sumTokens tail + estimate_tokens m) := by
  obtain ⟨k, hk, hbt, hmax⟩ :=
    budgetTake_spec B (recent_history ⟨true, true, some s, B, s :: ms⟩).reverse
      (estimate_tokens s)
  have hget := get_messages_ready ⟨true, true, some s, B, s :: ms⟩ s rfl rfl
  rw [hbt] at hget
  have hklen : k ≤ (recent_history ⟨true, true, some s, B, s :: ms⟩).length := by
    simpa using hk
  have htail :
      ((recent_history ⟨true, true, some s, B, s :: ms⟩).reverse.take k).reverse =
        (recent_history ⟨true, true, some s, B, s :: ms⟩).drop
          ((recent_history ⟨true, true, some s, B, s :: ms⟩).length - k) :=
    reverse_take_of_reverse _ k hklen
  refine ⟨_, hget, ?_, ?_, ?_⟩
  · -- the returned history is a suffix of the appended messages
    have h1 : 1 ≤ fetch_start ⟨true, true, some s, B, s :: ms⟩ :=
      fetch_start_pos _ rfl
    obtain ⟨j, hj⟩ : ∃ j, fetch_start ⟨true, true, some s, B, s :: ms⟩ = j + 1 :=
      ⟨_, (Nat.succ_pred_eq_of_pos h1).symm⟩
    refine ⟨(recent_history ⟨true, true, some s, B, s :: ms⟩).length - k + j, ?_⟩
    rw [htail]
    show ((s :: ms).drop (fetch_start ⟨true, true, some s, B, s :: ms⟩)).drop
        ((recent_history ⟨true, true, some s, B, s :: ms⟩).length - k) = _
    rw [hj, List.drop_succ_cons, List.drop_drop]
    congr 1
    omega
  · -- the history suffix fits the budget
    rw [← hbt, sumTokens_reverse]
    have := budgetTake_sum B
      (recent_history ⟨true, true, some s, B, s :: ms⟩).reverse (estimate_tokens s)
    omega
  · -- maximality: the next older fetched message would not fit
    intro m hm
    unfold next_evicted at hm
    have hlen : ((recent_history ⟨true, true, some s, B, s :: ms⟩).reverse.take k).reverse.length = k := by
      simp
      omega
    rw [hlen] at hm
    have h2 := hmax m hm
    have hsum := sumTokens_reverse
      ((recent_history ⟨true, true, some s, B, s :: ms⟩).reverse.take k)
    omega

/-- C1 (witness): the characterization instantiated at a concrete memory
with budget 100 and two history messages. -/
theorem get_messages_window_witness :
    ∃ tail : List Msg,
      get_messages ⟨true, true, some sysMsgJson, 100, sysMsgJson :: [userMsgJson, asstMsgJson]⟩ =
        sysMsgJson :: tail ∧
      (∃ k, tail = [userMsgJson, asstMsgJson].drop k) ∧
      sumTokens tail ≤ 100 ∧
      (∀ m, next_evicted ⟨true, true, some sysMsgJson, 100,
          sysMsgJson :: [userMsgJson, asstMsgJson]⟩ tail = some m →
        100 < estimate_tokens sysMsgJson + sumTokens tail + estimate_tokens m) :=
  get_messages_window_characterization 100 sysMsgJson [userMsgJson, asstMsgJson]

/-- C1 (counterexample to the claim as stated): with a budget smaller
than the system message's own estimated cost, the returned list's
cumulative estimated cost exceeds the budget. -/
theorem get_messages_budget_counterexample :
    get_messages memTinyBudget = [sysMsgJson] ∧
    ¬ (sumTokens (get_messages memTinyBudget) ≤ memTinyBudget.max_tokens) := by
  refine ⟨rfl, ?_⟩
  decide

/-- C6: whenever the liveness check fails, `add_message` returns `false`
without changing anything, `get_messages` returns only the configured
system message, and `is_ready` returns `false`. -/
theorem memory_unreachable_behaviour (m : MemState) (s msg : Msg)
    (hs : m.system_message = some s) (hdown : is_ready m = false) :
    add_message m msg = (m, false) ∧ get_messages m = [s] ∧ is_ready m = false := by
  refine ⟨?_, ?_, hdown⟩
  · simp [add_message, hdown]
  · simp [get_messages, hdown, hs]

/-- C6 (witness): the degraded behaviour at a concrete unreachable
memory. -/
theorem memory_unreachable_witness :
    add_message memDown userMsgJson = (memDown, false) ∧
      get_messages memDown = [sysMsgJson] ∧ is_ready memDown = false :=
  memory_unreachable_behaviour memDown sysMsgJson userMsgJson rfl rfl

/-- C7: construction-time system-message handling of the durable log: an
empty log receives the system message as its first element; a log whose
first element differs gets the system message prepended with all existing
messages preserved unchanged; a log already starting with the system
message is left unmodified. -/
theorem init_system_message_spec (s : Msg) :
    initSystemMessage (some s) [] = [s] ∧
    (∀ first rest, first ≠ s → initSystemMessage (some s) (first :: rest) = s :: first :: rest) ∧
    (∀ rest, initSystemMessage (some s) (s :: rest) = s :: rest) := by
  refine ⟨rfl, ?_, ?_⟩
  · intro first rest h
    simp [initSystemMessage, h]
  · intro rest
    simp [initSystemMessage]

/-- C7 (witness): the three construction cases at concrete logs. -/
theorem init_system_message_witness :
    initSystemMessage (some sysMsgJson) [] = [sysMsgJson] ∧
    initSystemMessage (some sysMsgJson) [userMsgJson, asstMsgJson] =
      [sysMsgJson, userMsgJson, asstMsgJson] ∧
    initSystemMessage (some sysMsgJson) [sysMsgJson, userMsgJson] =
      [sysMsgJson, userMsgJson] :=
  ⟨(init_system_message_spec sysMsgJson).1,
   (init_system_message_spec sysMsgJson).2.1 userMsgJson [asstMsgJson] (by decide),
   (init_system_message_spec sysMsgJson).2.2 [userMsgJson]⟩

/-- C10: the system message's estimated cost is charged against the
budget before any history message is considered, so whenever the system
message alone fits, the total estimated cost of the entire returned list,
system message included, is at most `max_tokens`. -/
theorem system_message_charged_first (m : MemState) (s : Msg)
    (hs : m.system_message = some s) (hfit : estimate_tokens s ≤ m.max_tokens) :
    ∃ tail, get_messages m = s :: tail ∧
      sumTokens (get_messages m) ≤ m.max_tokens := by
  cases hr : is_ready m
  · refine ⟨[], by simp [get_messages, hr, hs], ?_⟩
    simp only [get_messages, hr, Bool.false_eq_true, if_false, hs, sumTokens_cons,
      sumTokens_nil]
    omega
  · have hget := get_messages_ready m s hr hs
    refine ⟨_, hget, ?_⟩
    rw [hget, sumTokens_cons, sumTokens_reverse]
    have := budgetTake_sum m.max_tokens (recent_history m).reverse (estimate_tokens s)
    omega

/-- C10 (witness): the budget bound at a concrete ready memory whose
system message fits. -/
theorem system_message_charged_first_witness :
    estimate_tokens sysMsgJson ≤ memSmall.max_tokens ∧
    ∃ tail, get_messages memSmall = sysMsgJson :: tail ∧
      sumTokens (get_messages memSmall) ≤ memSmall.max_tokens :=
  ⟨by decide, system_message_charged_first memSmall sysMsgJson rfl (by decide)⟩

/-! ## Theorems: orchestration loop -/

/-- The dispatcher always produces a value (shared helper; the
try/except structure of `execute_tool_call` absorbs every exception). -/
lemma execute_tool_call_ok (loads : String → Option PyVal) (tool_map : List PyTool)
    (tc : ToolCallData) : ∃ v, execute_tool_call loads tool_map tc = .ok v := by
  cases hf : truthy tc.fname with
  | none =>
    exact ⟨.pyStr "Error: Tool call missing function name.",
      by simp [execute_tool_call, hf]⟩
  | some fn =>
    cases ha : truthy tc.arguments with
    | none =>
      obtain ⟨v, hv, _⟩ := dispatchParsed_ok tool_map fn (.pyDict [])
      exact ⟨v, by simp [execute_tool_call, hf, ha, hv]⟩
    | some s =>
      cases hl : loads s with
      | none =>
        exact ⟨.pyStr ("Error: Invalid JSON args for " ++ fn ++ ": " ++ s),
          by simp [execute_tool_call, hf, ha, hl]⟩
      | some fa =>
        obtain ⟨v, hv, _⟩ := dispatchParsed_ok tool_map fn fa
        exact ⟨v, by simp [execute_tool_call, hf, ha, hl, hv]⟩

/-- The tool-execution phase never raises: each dispatch returns a value
and each result is appended to memory. -/
lemma runToolCalls_ok (cfg : TurnConfig) :
    ∀ (tcs : List ToolCallRequest) (mem : MemState),
      ∃ mem', runToolCalls cfg mem tcs = .ok mem' := by
  intro tcs
  induction tcs with
  | nil => intro mem; exact ⟨mem, rfl⟩
  | cons tc rest ih =>
    intro mem
    obtain ⟨v, hv⟩ := execute_tool_call_ok cfg.loads cfg.tool_map (toToolCallData tc)
    obtain ⟨mem', hmem'⟩ :=
      ih ((add_message mem (cfg.serializeTool (cfg.pyToStr v) (some tc.id))).1)
    exact ⟨mem', by simp [runToolCalls, hv, hmem']⟩

/-- C8: in every turn whose first completion produced a non-empty
tool_calls list, exactly two completion requests are issued; the first
carries the full schema list and `tool_choice="auto"`, and the second —
issued after all tool results are appended — carries no tool definitions
and no tool_choice. -/
theorem second_completion_without_tools (cfg : TurnConfig) (mem : MemState)
    (user_message : Msg) (hready : is_ready mem = true)
    (htc : toolCallsTruthy (handle_streaming_response cfg.loads
        (cfg.backend (firstRequest cfg (add_message mem user_message).1)).1
        (cfg.backend (firstRequest cfg (add_message mem user_message).1)).2).tool_calls = true) :
    ∃ mem' q1 q2, runTurn cfg mem user_message = .ok (mem', [q1, q2]) ∧
      q1.tools = some cfg.schemas ∧ q1.tool_choice = some "auto" ∧
      q2.tools = none ∧ q2.tool_choice = none := by
  have hadd : add_message mem user_message =
      ({ mem with log := mem.log ++ [user_message] }, true) := by
    simp [add_message, hready]
  rw [hadd] at htc
  obtain ⟨mem3, h3⟩ := runToolCalls_ok cfg
    ((handle_streaming_response cfg.loads
        (cfg.backend (firstRequest cfg { mem with log := mem.log ++ [user_message] })).1
        (cfg.backend (firstRequest cfg { mem with log := mem.log ++ [user_message] })).2).tool_calls.getD [])
    ((add_message { mem with log := mem.log ++ [user_message] }
        (cfg.serializeAssistant (handle_streaming_response cfg.loads
          (cfg.backend (firstRequest cfg { mem with log := mem.log ++ [user_message] })).1
          (cfg.backend (firstRequest cfg { mem with log := mem.log ++ [user_message] })).2))).1)
  have hrun : runTurn cfg mem user_message = .ok
      ((add_message mem3 (cfg.serializeAssistant (handle_streaming_response cfg.loads
          (cfg.backend (secondRequest cfg mem3)).1
          (cfg.backend (secondRequest cfg mem3)).2))).1,
        [firstRequest cfg { mem with log := mem.log ++ [user_message] },
         secondRequest cfg mem3]) := by
    unfold runTurn
    rw [hadd]
    simp only [htc, if_true, h3]
  exact ⟨_, _, _, hrun, rfl, rfl, rfl, rfl⟩

/-- C8 (witness): a concrete turn in which the first completion requests
one tool call; the two issued requests carry tools and tool_choice only
on the first. -/
theorem second_completion_without_tools_witness :
    ∃ mem' q1 q2, runTurn cfgW memForTurn userMsgJson = .ok (mem', [q1, q2]) ∧
      q1.tools = some cfgW.schemas ∧ q1.tool_choice = some "auto" ∧
      q2.tools = none ∧ q2.tool_choice = none :=
  second_completion_without_tools cfgW memForTurn userMsgJson rfl (by rfl)

end RaidenAlpha
